import Mathlib

/-!
Verification of the StickerStudio generation/post-processing core
(`src/services/geminiService.ts`) against its specification.

The TypeScript source is shallowly embedded: machine numbers become `Nat`
(byte values, indices); the export quality factor is a JavaScript double,
embedded as an exact binary64 value (an integer significand times a power
of two, with correctly rounded subtraction).  JavaScript string `includes`
becomes list-infix search on the character list, rejected promises become
`Except`, and the
external network operation is modelled as a map from the attempt number to
that attempt's outcome.  Mutable buffers (`Uint8Array visited`, the
`Int32Array` BFS queue, the RGBA `data` array) become a state record with
functional updates, and the BFS `while` loop becomes a well-founded
recursion whose termination measure is exactly the argument that bounds the
real loop.
-/

namespace StickerStudio

/-- JavaScript `msg.includes(pat)`: `pat` occurs contiguously in `msg`. -/
def strContains (msg pat : String) : Bool :=
  decide (pat.toList <:+: msg.toList)

/-- Error constant `ERROR_API_KEY_REQUIRED` from `geminiService.ts`. -/
def ERROR_API_KEY_REQUIRED : String := "API_KEY_REQUIRED"

/-- Error constant `ERROR_API_KEY_INVALID` from `geminiService.ts`. -/
def ERROR_API_KEY_INVALID : String := "API_KEY_INVALID"

/-- The external settings store visible to `callGemini`: the stored
user-supplied API key (`getUserApiKey`/`clearUserApiKey`) and the free-image
counter (`getFreeImageCount` in `storage.ts`). -/
structure Store where
  userApiKey : Option String
  freeImageCount : Nat
deriving DecidableEq, Repr

/-- The non-retryable (client error) test of `retryOperation`:
`msg.includes("404") || msg.includes("not found") ||
 msg.includes("Requested entity was not found") || msg.includes("403") ||
 msg.includes("400") || msg.includes("API key")`. -/
def isClientError (msg : String) : Bool :=
  strContains msg "404" || strContains msg "not found" ||
    strContains msg "Requested entity was not found" ||
    strContains msg "403" || strContains msg "400" || strContains msg "API key"

/-- The authentication-failure test of `callGemini`:
`msg.includes("API key not valid") || msg.includes("API_KEY_INVALID") ||
 msg.includes("403") || msg.includes("API key") ||
 msg.includes("PERMISSION_DENIED")`. -/
def isAuthError (msg : String) : Bool :=
  strContains msg "API key not valid" || strContains msg "API_KEY_INVALID" ||
    strContains msg "403" || strContains msg "API key" ||
    strContains msg "PERMISSION_DENIED"

/-- One run of `retryOperation`.  `op k` is the outcome of the `(k+1)`-st
invocation of the wrapped operation.  Returns the final outcome, the number
of invocations made, and the list of delays (ms) awaited between attempts.
Mirrors the source: on error, a client error or exhausted retries rethrows;
otherwise wait `delay`, then recurse with `retries - 1` and `delay * 2`. -/
def retryOperationAux {α : Type} (op : Nat → Except String α) :
    Nat → Nat → Nat → Except String α × Nat × List Nat
  | k, retries, delay =>
    match op k with
    | .ok v => (.ok v, 1, [])
    | .error msg =>
      if isClientError msg then
        (.error msg, 1, [])
      else
        match retries with
        | 0 => (.error msg, 1, [])
        | r + 1 =>
          let rest := retryOperationAux op (k + 1) r (delay * 2)
          (rest.1, rest.2.1 + 1, delay :: rest.2.2)

/-- `retryOperation(operation)` with the source defaults `retries = 2`,
`delay = 1000`. -/
def retryOperation {α : Type} (op : Nat → Except String α) :
    Except String α × Nat × List Nat :=
  retryOperationAux op 0 2 1000

/-- `callGemini`: require a stored user key (else fail with
`ERROR_API_KEY_REQUIRED` before any network call), run the operation under
`retryOperation`, and on failure classify: an authentication error clears
the stored key and fails with `ERROR_API_KEY_INVALID`; anything else is
rethrown unchanged.  Returns the outcome, the store after the call, and the
number of network calls issued. -/
def callGemini {α : Type} (store : Store) (op : Nat → Except String α) :
    Except String α × Store × Nat :=
  match store.userApiKey with
  | none => (.error ERROR_API_KEY_REQUIRED, store, 0)
  | some _ =>
    let r := retryOperation op
    match r.1 with
    | .ok v => (.ok v, store, r.2.1)
    | .error msg =>
      if isAuthError msg then
        (.error ERROR_API_KEY_INVALID, { store with userApiKey := none }, r.2.1)
      else
        (.error msg, store, r.2.1)

/-! ## The export quality ladder, in exact binary64 arithmetic

The source steps `quality` as a JavaScript number: `attemptConversion(0.9)`,
then `attemptConversion(quality - 0.1)` while `blob.size > 99 * 1024 &&
quality > 0.1`.  Because every finite double is a dyadic rational, doubles
are embedded exactly as an integer significand times a power of two, and
the `- 0.1` step is binary64 subtraction: subtract exactly, then round to
53 significant bits (nearest, ties to even).  Under this arithmetic the
iterate at nominal 0.1 is `0.10000000000000014 > 0.1`, so the ladder takes
one more step than the decimal reading suggests. -/

/-- Bit length of a natural number (number of binary digits); the fuel 4096
covers the full binary64 exponent range. -/
def bitLenAux : Nat → Nat → Nat
  | 0, _ => 0
  | f + 1, n => if n = 0 then 0 else bitLenAux f (n / 2) + 1

/-- `bitLen n` is the number of binary digits of `n` (0 for 0). -/
def bitLen (n : Nat) : Nat := bitLenAux 4096 n

/-- A finite IEEE binary64 value, exactly: the rational `m * 2 ^ e`. -/
structure F64 where
  m : Int
  e : Int
deriving DecidableEq, Repr

/-- Round the exact value `dm * 2 ^ e` to 53 significant bits — nearest,
ties to even — as binary64 arithmetic does. -/
def rnd53 (dm : Int) (e : Int) : F64 :=
  let n := dm.natAbs
  let L := bitLen n
  if L ≤ 53 then ⟨dm, e⟩
  else
    let s := L - 53
    let q := n / 2 ^ s
    let r := n % 2 ^ s
    let half := 2 ^ (s - 1)
    let q2 : Nat :=
      if half < r then q + 1
      else if r < half then q
      else if q % 2 = 0 then q else q + 1
    ⟨if dm < 0 then -(q2 : Int) else (q2 : Int), e + s⟩

/-- Binary64 subtraction `x - y`: align the significands, subtract exactly,
round to 53 bits. -/
def F64.sub (x y : F64) : F64 :=
  let e := min x.e y.e
  rnd53 (x.m * 2 ^ (x.e - e).toNat - y.m * 2 ^ (y.e - e).toNat) e

/-- The binary64 strict order `x < y`, decided on aligned significands. -/
def F64.blt (x y : F64) : Bool :=
  let e := min x.e y.e
  decide (x.m * 2 ^ (x.e - e).toNat < y.m * 2 ^ (y.e - e).toNat)

/-- The exact rational value of a binary64 number. -/
def F64.toRat (x : F64) : ℚ :=
  if 0 ≤ x.e then (x.m : ℚ) * 2 ^ x.e.toNat else (x.m : ℚ) / 2 ^ (-x.e).toNat

/-- The double of the literal `0.1`: `3602879701896397 * 2 ^ (-55)`,
slightly above 1/10. -/
def d01 : F64 := ⟨3602879701896397, -55⟩

/-- The double of the literal `0.9`: `8106479329266893 * 2 ^ (-53)`. -/
def d09 : F64 := ⟨8106479329266893, -53⟩

/-- The value of the source's `quality` variable after `k` executions of
`quality - 0.1`, in exact binary64 arithmetic, starting from `0.9`. -/
def qualityAt : Nat → F64
  | 0 => d09
  | k + 1 => F64.sub (qualityAt k) d01

set_option maxRecDepth 4000

theorem rnd53_m_nonpos (dm e : Int) (h : dm ≤ 0) : (rnd53 dm e).m ≤ 0 := by
  unfold rnd53
  by_cases hL : bitLen dm.natAbs ≤ 53
  · simp only [hL, if_true]
    exact h
  · simp only [hL, if_false]
    by_cases hdm : dm < 0
    · simp only [hdm, if_true]
      rw [neg_nonpos]
      exact Int.natCast_nonneg _
    · exfalso
      apply hL
      have h0 : dm = 0 := le_antisymm h (not_lt.mp hdm)
      rw [h0]
      decide

theorem sub_m_nonpos (x y : F64)
    (h : x.m * 2 ^ (x.e - min x.e y.e).toNat ≤
      y.m * 2 ^ (y.e - min x.e y.e).toNat) :
    (F64.sub x y).m ≤ 0 := by
  unfold F64.sub
  exact rnd53_m_nonpos _ _ (by omega)

theorem blt_false_of_m_nonpos (x y : F64) (hy : 0 < y.m) (hx : x.m ≤ 0) :
    F64.blt y x = false := by
  unfold F64.blt
  simp only [decide_eq_false_iff_not, not_lt]
  have h1 : x.m * 2 ^ (x.e - min y.e x.e).toNat ≤ 0 :=
    mul_nonpos_of_nonpos_of_nonneg hx (by positivity)
  have h2 : 0 < y.m * 2 ^ (y.e - min y.e x.e).toNat :=
    mul_pos hy (pow_pos (by norm_num) _)
  omega

/-- From the 9th step on, the quality iterate is never above the double
0.1 any more: step 9 is `5 * 2 ^ (-55)` (checked by computation), and every
later iterate has a nonpositive significand. -/
theorem qualityAt_floor : ∀ k, 9 ≤ k → F64.blt d01 (qualityAt k) = false := by
  intro k
  induction k with
  | zero => intro h; exact absurd h (by omega)
  | succ n ih =>
    intro h
    rcases Nat.lt_or_ge n 9 with h9 | h9
    · have hn : n = 8 := by omega
      subst hn
      decide
    · have hblt := ih h9
      show F64.blt d01 (F64.sub (qualityAt n) d01) = false
      apply blt_false_of_m_nonpos _ _ (by norm_num [d01])
      apply sub_m_nonpos
      unfold F64.blt at hblt
      simp only [decide_eq_false_iff_not, not_lt] at hblt
      rwa [min_comm] at hblt

/-- `attemptConversion` of `convertToWhatsAppFormat`.  The encoder is the
environment-supplied `canvas.toBlob` at a given quality: `none` models a
null blob (encode failure), `some size` a blob of that byte size.  The
source recurses on the `quality` double itself; here the recursion argument
is the step count `k` and `qualityAt k` is the exact binary64 value quality
holds at that step, so the guard `quality > 0.1` is `F64.blt d01
(qualityAt k)`.  Returns the chosen blob size and the quality at which it
was produced. -/
def attemptConversion (encode : F64 → Option Nat) (k : Nat) :
    Except Unit (Nat × F64) :=
  match encode (qualityAt k) with
  | none => .error ()
  | some size =>
    if hq : 99 * 1024 < size ∧ F64.blt d01 (qualityAt k) = true then
      attemptConversion encode (k + 1)
    else
      .ok (size, qualityAt k)
termination_by 10 - k
decreasing_by
  have hk : ¬ 9 ≤ k := fun h9 => by
    rw [qualityAt_floor k h9] at hq
    exact Bool.noConfusion hq.2
  omega

/-- `convertToWhatsAppFormat` starts the quality ladder at `0.9`
(`qualityAt 0 = d09`). -/
def convertToWhatsAppFormat (encode : F64 → Option Nat) :
    Except Unit (Nat × F64) :=
  attemptConversion encode 0

/-! ## Background matting (`removeSmartBackground`) -/

/-- `TOLERANCE = 20` from the source. -/
def TOLERANCE : Nat := 20

/-- `TOLERANCE_SQ = TOLERANCE * TOLERANCE`. -/
def TOLERANCE_SQ : Nat := TOLERANCE * TOLERANCE

/-- `isBlack(idx)`: the pixel's squared RGB norm is within tolerance.
`data` is the flat RGBA byte array (`imageData.data`). -/
def isBlack (data : List Nat) (idx : Nat) : Bool :=
  let offset := idx * 4
  let r := data.getD offset 0
  let g := data.getD (offset + 1) 0
  let b := data.getD (offset + 2) 0
  decide (r * r + g * g + b * b ≤ TOLERANCE_SQ)

/-- The flood-fill state: the `visited` bitmap, the fixed queue with its
`head`/`tail` cursors.  Arrays become total functions over indices. -/
structure FloodState where
  visited : Nat → Bool
  queue : Nat → Nat
  head : Nat
  tail : Nat

/-- Initial state: `visited` all zero, queue zero-initialised, cursors 0. -/
def initState : FloodState :=
  { visited := fun _ => false, queue := fun _ => 0, head := 0, tail := 0 }

/-- `push(idx)`: if `idx` is in range, unvisited and near-black, mark it
visited and enqueue it at `tail` (then `tail++`); otherwise do nothing.
(`idx ≥ 0` is implicit in `Nat`.) -/
def push (data : List Nat) (total : Nat) (s : FloodState) (idx : Nat) :
    FloodState :=
  if idx < total ∧ s.visited idx = false ∧ isBlack data idx = true then
    { visited := fun j => if j = idx then true else s.visited j,
      queue := fun j => if j = s.tail then idx else s.queue j,
      head := s.head,
      tail := s.tail + 1 }
  else s

/-- A guarded `push`, used to sequence the four neighbour pushes of the BFS
loop body without nested `if` terms. -/
def pushIf (data : List Nat) (total : Nat) (c : Bool) (s : FloodState)
    (idx : Nat) : FloodState :=
  if c then push data total s idx else s

/-- The fall-back seeding along the horizontal edges:
`for (i = 0; i < width; i += 10) { push(i); push(totalPixels - 1 - i); }`. -/
def edgeSeedH (data : List Nat) (total w : Nat) (i : Nat) (s : FloodState) :
    FloodState :=
  if hi : i < w then
    edgeSeedH data total w (i + 10)
      (push data total (push data total s i) (total - 1 - i))
  else s
termination_by w - i
decreasing_by omega

/-- The fall-back seeding along the vertical edges:
`for (i = 0; i < height; i += 10) { push(i*width); push(i*width + width - 1); }`. -/
def edgeSeedV (data : List Nat) (total w hgt : Nat) (i : Nat)
    (s : FloodState) : FloodState :=
  if hi : i < hgt then
    edgeSeedV data total w hgt (i + 10)
      (push data total (push data total s (i * w)) (i * w + w - 1))
  else s
termination_by hgt - i
decreasing_by omega

/-- The seeding phase: push the four corners; if that yields no seed
(`tail === 0`), seed every 10th pixel along all four edges. -/
def seedState (data : List Nat) (w h : Nat) : FloodState :=
  let total := w * h
  let s0 := push data total
    (push data total
      (push data total
        (push data total initState 0)
        (w - 1))
      ((h - 1) * w))
    (total - 1)
  if s0.tail = 0 then
    edgeSeedV data total w h 0 (edgeSeedH data total w 0 s0)
  else s0

/-- The body of one BFS iteration after the dequeue: push the 4-connected
neighbours of `idx`, each under the source's bounds guard
(`x > 0`, `x < width - 1`, `idx >= width`, `idx < totalPixels - width`). -/
def stepNeighbors (data : List Nat) (total w : Nat) (s : FloodState)
    (idx : Nat) : FloodState :=
  pushIf data total (decide (idx < total - w))
    (pushIf data total (decide (w ≤ idx))
      (pushIf data total (decide (idx % w < w - 1))
        (pushIf data total (decide (0 < idx % w)) s (idx - 1))
        (idx + 1))
      (idx - w))
    (idx + w)

/-- Number of `true` entries of the visited bitmap below `total`; the
termination measure of the BFS uses that each enqueue marks one new pixel
visited. -/
def cardV (total : Nat) (vis : Nat → Bool) : Nat :=
  ((Finset.range total).filter (fun j => vis j = true)).card

/-- BFS termination measure: pending queue entries plus unvisited pixels. -/
def msr (total : Nat) (s : FloodState) : Nat :=
  (s.tail - s.head) + (total - cardV total s.visited)

theorem cardV_le (total : Nat) (vis : Nat → Bool) : cardV total vis ≤ total :=
  le_trans (Finset.card_filter_le _ _) (le_of_eq (Finset.card_range total))

theorem cardV_update (total : Nat) (vis : Nat → Bool) (idx : Nat)
    (h1 : idx < total) (h2 : vis idx = false) :
    cardV total (fun j => if j = idx then true else vis j) =
      cardV total vis + 1 := by
  unfold cardV
  have hset : (Finset.range total).filter
      (fun j => (if j = idx then true else vis j) = true) =
      insert idx ((Finset.range total).filter (fun j => vis j = true)) := by
    ext j
    by_cases hj : j = idx
    · subst hj
      simp [Finset.mem_filter, Finset.mem_range, h1]
    · simp [Finset.mem_filter, Finset.mem_insert, hj]
  rw [hset, Finset.card_insert_of_not_mem]
  simp [Finset.mem_filter, h2]

theorem cardV_lt_of_false (total : Nat) (vis : Nat → Bool) (idx : Nat)
    (h1 : idx < total) (h2 : vis idx = false) : cardV total vis < total := by
  have h := cardV_update total vis idx h1 h2
  have h2' := cardV_le total (fun j => if j = idx then true else vis j)
  omega

/-- Case analysis on `push`. -/
theorem push_eq (data : List Nat) (total : Nat) (s : FloodState) (idx : Nat) :
    (¬(idx < total ∧ s.visited idx = false ∧ isBlack data idx = true) ∧
      push data total s idx = s) ∨
    ((idx < total ∧ s.visited idx = false ∧ isBlack data idx = true) ∧
      push data total s idx =
        { visited := fun j => if j = idx then true else s.visited j,
          queue := fun j => if j = s.tail then idx else s.queue j,
          head := s.head, tail := s.tail + 1 }) := by
  by_cases h : idx < total ∧ s.visited idx = false ∧ isBlack data idx = true
  · exact Or.inr ⟨h, by simp [push, h]⟩
  · exact Or.inl ⟨h, by simp [push, h]⟩

theorem push_head (data : List Nat) (total : Nat) (s : FloodState)
    (idx : Nat) : (push data total s idx).head = s.head := by
  rcases push_eq data total s idx with ⟨_, he⟩ | ⟨_, he⟩ <;> rw [he]

theorem push_tail_ge (data : List Nat) (total : Nat) (s : FloodState)
    (idx : Nat) : s.tail ≤ (push data total s idx).tail := by
  rcases push_eq data total s idx with ⟨_, he⟩ | ⟨_, he⟩ <;> simp [he]

theorem push_vis_mono (data : List Nat) (total : Nat) (s : FloodState)
    (idx p : Nat) (h : s.visited p = true) :
    (push data total s idx).visited p = true := by
  rcases push_eq data total s idx with ⟨_, he⟩ | ⟨_, he⟩ <;> rw [he]
  · exact h
  · by_cases hp : p = idx <;> simp [hp, h]

theorem push_vis_self (data : List Nat) (total : Nat) (s : FloodState)
    (idx : Nat) (h1 : idx < total) (h2 : isBlack data idx = true) :
    (push data total s idx).visited idx = true := by
  rcases push_eq data total s idx with ⟨hc, he⟩ | ⟨_, he⟩ <;> rw [he]
  · rcases hv : s.visited idx with _ | _
    · exact absurd ⟨h1, hv, h2⟩ hc
    · rfl
  · simp

theorem push_vis_of (data : List Nat) (total : Nat) (s : FloodState)
    (idx p : Nat) (h : (push data total s idx).visited p = true) :
    s.visited p = true ∨
      (p = idx ∧ idx < total ∧ isBlack data idx = true) := by
  rcases push_eq data total s idx with ⟨_, he⟩ | ⟨hc, he⟩
  · rw [he] at h; exact Or.inl h
  · rw [he] at h
    by_cases hp : p = idx
    · exact Or.inr ⟨hp, hc.1, hc.2.2⟩
    · simp only [hp, if_false] at h
      exact Or.inl h

theorem push_queue_stable (data : List Nat) (total : Nat) (s : FloodState)
    (idx j : Nat) (hj : j < s.tail) :
    (push data total s idx).queue j = s.queue j := by
  rcases push_eq data total s idx with ⟨_, he⟩ | ⟨_, he⟩ <;> rw [he]
  have : j ≠ s.tail := by omega
  simp [this]

theorem push_msr (data : List Nat) (total : Nat) (s : FloodState) (idx : Nat)
    (hht : s.head ≤ s.tail) :
    (push data total s idx).head ≤ (push data total s idx).tail ∧
      msr total (push data total s idx) = msr total s := by
  rcases push_eq data total s idx with ⟨_, he⟩ | ⟨hc, he⟩
  · rw [he]; exact ⟨hht, rfl⟩
  · rw [he]
    have hcard := cardV_update total s.visited idx hc.1 hc.2.1
    have hlt := cardV_lt_of_false total s.visited idx hc.1 hc.2.1
    constructor
    · simpa using le_trans hht (Nat.le_succ _)
    · simp only [msr, hcard]
      omega

theorem pushIf_msr (data : List Nat) (total : Nat) (c : Bool)
    (s : FloodState) (idx : Nat) (hht : s.head ≤ s.tail) :
    (pushIf data total c s idx).head ≤ (pushIf data total c s idx).tail ∧
      msr total (pushIf data total c s idx) = msr total s := by
  rcases c with _ | _
  · exact ⟨hht, rfl⟩
  · exact push_msr data total s idx hht

theorem stepNeighbors_msr (data : List Nat) (total w : Nat) (s : FloodState)
    (idx : Nat) (hht : s.head ≤ s.tail) :
    (stepNeighbors data total w s idx).head ≤
        (stepNeighbors data total w s idx).tail ∧
      msr total (stepNeighbors data total w s idx) = msr total s := by
  unfold stepNeighbors
  have h1 := pushIf_msr data total (decide (0 < idx % w)) s (idx - 1) hht
  have h2 := pushIf_msr data total (decide (idx % w < w - 1)) _ (idx + 1) h1.1
  have h3 := pushIf_msr data total (decide (w ≤ idx)) _ (idx - w) h2.1
  have h4 := pushIf_msr data total (decide (idx < total - w)) _ (idx + w) h3.1
  exact ⟨h4.1, by rw [h4.2, h3.2, h2.2, h1.2]⟩

/-- The BFS `while (head < tail)` loop: dequeue `queue[head++]` and push the
4-connected neighbours.  Terminates because each iteration consumes one
queue slot and every enqueue marks a previously unvisited pixel. -/
def bfsLoop (data : List Nat) (total w : Nat) (s : FloodState) : FloodState :=
  if hc : s.head < s.tail then
    bfsLoop data total w
      (stepNeighbors data total w { s with head := s.head + 1 }
        (s.queue s.head))
  else s
termination_by msr total s
decreasing_by
  have hht : ({ s with head := s.head + 1 } : FloodState).head ≤
      ({ s with head := s.head + 1 } : FloodState).tail := hc
  have h := stepNeighbors_msr data total w { s with head := s.head + 1 }
    (s.queue s.head) hht
  rw [h.2]
  simp only [msr]
  omega

/-- The whole first pass of `removeSmartBackground`: seed, then BFS. -/
def floodFill (data : List Nat) (w h : Nat) : FloodState :=
  bfsLoop data (w * h) w (seedState data w h)

/-- The edge test of pass 2: some 4-connected neighbour (under the source's
bounds guards) is visited. -/
def isEdgePix (vis : Nat → Bool) (total w i : Nat) : Bool :=
  (decide (0 < i % w) && vis (i - 1)) ||
    (decide (i % w < w - 1) && vis (i + 1)) ||
    (decide (w ≤ i) && vis (i - w)) ||
    (decide (i < total - w) && vis (i + w))

/-- `Math.max(r, Math.max(g, b))` of pixel `i`'s own colour. -/
def maxRGB (data : List Nat) (i : Nat) : Nat :=
  max (data.getD (i * 4) 0)
    (max (data.getD (i * 4 + 1) 0) (data.getD (i * 4 + 2) 0))

/-- One iteration of pass 2 over pixel `i`: background pixels get alpha 0,
edge pixels get `alpha = max(R, G, B)`, all others are left untouched. -/
def pass2Step (vis : Nat → Bool) (total w : Nat) (data : List Nat)
    (i : Nat) : List Nat :=
  if vis i then
    data.set (i * 4 + 3) 0
  else if isEdgePix vis total w i then
    data.set (i * 4 + 3) (maxRGB data i)
  else
    data

/-- Pass 2: `for (i = 0; i < totalPixels; i++) ...`. -/
def pass2 (vis : Nat → Bool) (total w : Nat) (data : List Nat) : List Nat :=
  (List.range total).foldl (pass2Step vis total w) data

/-- The pixel transformation of `removeSmartBackground` on a decoded image:
flood fill from the black border, then rewrite the alpha channel. -/
def removeSmartBackgroundData (data : List Nat) (w h : Nat) : List Nat :=
  pass2 (floodFill data w h).visited (w * h) w data

/-- The environment-determined outcome of loading/decoding the input image
inside `removeSmartBackground`: the image may fail to load (`img.onerror`),
the 2d canvas context may be unavailable, or decoding succeeds with a pixel
buffer. -/
inductive MatteInput where
  | loadError
  | noContext (w h : Nat)
  | decoded (w h : Nat) (data : List Nat)

/-- `removeSmartBackground` as a whole: on either internal failure the
promise resolves with the original base64 string; on success it resolves
with the processed pixels. -/
def removeSmartBackgroundRun (original : String) (input : MatteInput) :
    String ⊕ (Nat × Nat × List Nat) :=
  match input with
  | .loadError => .inl original
  | .noContext _ _ => .inl original
  | .decoded w h data => .inr (w, h, removeSmartBackgroundData data w h)

/-! ## Flood-fill invariants -/

/-- Structural invariants of the flood-fill state: cursors are ordered, the
queue cannot outgrow the number of visited pixels, visited pixels are
in-range and near-black, queue entries below `tail` are visited and pairwise
distinct, and every visited pixel sits in the queue. -/
structure CoreInv (data : List Nat) (total : Nat) (s : FloodState) : Prop where
  head_le : s.head ≤ s.tail
  tail_card : s.tail ≤ cardV total s.visited
  vis_lt : ∀ p, s.visited p = true → p < total
  vis_black : ∀ p, s.visited p = true → isBlack data p = true
  queue_vis : ∀ j, j < s.tail → s.visited (s.queue j) = true
  queue_inj : ∀ j k, j < k → k < s.tail → s.queue j ≠ s.queue k
  vis_enq : ∀ p, s.visited p = true → ∃ j, j < s.tail ∧ s.queue j = p

theorem push_core (data : List Nat) (total : Nat) (s : FloodState)
    (idx : Nat) (h : CoreInv data total s) :
    CoreInv data total (push data total s idx) := by
  rcases push_eq data total s idx with ⟨_, he⟩ | ⟨hc, he⟩
  · rw [he]; exact h
  · rw [he]
    obtain ⟨hidx, hvis, hblack⟩ := hc
    refine ⟨?_, ?_, ?_, ?_, ?_, ?_, ?_⟩ <;> dsimp only
    · have := h.head_le
      omega
    · rw [cardV_update total s.visited idx hidx hvis]
      have := h.tail_card
      omega
    · intro p hp
      by_cases hpi : p = idx
      · exact hpi ▸ hidx
      · exact h.vis_lt p (by simpa [hpi] using hp)
    · intro p hp
      by_cases hpi : p = idx
      · exact hpi ▸ hblack
      · exact h.vis_black p (by simpa [hpi] using hp)
    · intro j hj
      by_cases hjt : j = s.tail
      · simp [hjt]
      · have hj' : j < s.tail := by omega
        have hq := h.queue_vis j hj'
        simp only [hjt, if_false]
        by_cases hqi : s.queue j = idx <;> simp [hqi, hq]
    · intro j k hjk hk
      by_cases hkt : k = s.tail
      · subst hkt
        have hjt : j ≠ s.tail := by omega
        have hj' : j < s.tail := by omega
        simp only [hjt, if_false, eq_self_iff_true, if_true]
        intro hcon
        have hq := h.queue_vis j hj'
        rw [hcon] at hq
        rw [hq] at hvis
        exact Bool.noConfusion hvis
      · have hk' : k < s.tail := by omega
        have hjt : j ≠ s.tail := by omega
        simp only [hkt, hjt, if_false]
        exact h.queue_inj j k hjk hk'
    · intro p hp
      by_cases hpi : p = idx
      · exact ⟨s.tail, by omega, by simp [hpi]⟩
      · have hp' : s.visited p = true := by simpa [hpi] using hp
        obtain ⟨j, hj, hq⟩ := h.vis_enq p hp'
        have hjt : j ≠ s.tail := by omega
        exact ⟨j, by omega, by simp [hjt, hq]⟩

theorem pushIf_core (data : List Nat) (total : Nat) (c : Bool)
    (s : FloodState) (idx : Nat) (h : CoreInv data total s) :
    CoreInv data total (pushIf data total c s idx) := by
  rcases c with _ | _
  · exact h
  · exact push_core data total s idx h

theorem pushIf_head (data : List Nat) (total : Nat) (c : Bool)
    (s : FloodState) (idx : Nat) :
    (pushIf data total c s idx).head = s.head := by
  rcases c with _ | _
  · rfl
  · exact push_head data total s idx

theorem pushIf_tail_ge (data : List Nat) (total : Nat) (c : Bool)
    (s : FloodState) (idx : Nat) :
    s.tail ≤ (pushIf data total c s idx).tail := by
  rcases c with _ | _
  · exact Nat.le_refl _
  · exact push_tail_ge data total s idx

theorem pushIf_vis_mono (data : List Nat) (total : Nat) (c : Bool)
    (s : FloodState) (idx p : Nat) (h : s.visited p = true) :
    (pushIf data total c s idx).visited p = true := by
  rcases c with _ | _
  · exact h
  · exact push_vis_mono data total s idx p h

theorem pushIf_vis_self (data : List Nat) (total : Nat) (c : Bool)
    (s : FloodState) (idx : Nat) (hc : c = true) (h1 : idx < total)
    (h2 : isBlack data idx = true) :
    (pushIf data total c s idx).visited idx = true := by
  subst hc
  exact push_vis_self data total s idx h1 h2

theorem pushIf_vis_of (data : List Nat) (total : Nat) (c : Bool)
    (s : FloodState) (idx p : Nat)
    (h : (pushIf data total c s idx).visited p = true) :
    s.visited p = true ∨
      (p = idx ∧ idx < total ∧ isBlack data idx = true) := by
  rcases c with _ | _
  · exact Or.inl h
  · exact push_vis_of data total s idx p h

theorem pushIf_queue_stable (data : List Nat) (total : Nat) (c : Bool)
    (s : FloodState) (idx j : Nat) (hj : j < s.tail) :
    (pushIf data total c s idx).queue j = s.queue j := by
  rcases c with _ | _
  · rfl
  · exact push_queue_stable data total s idx j hj

theorem edgeSeedH_pres (data : List Nat) (total w : Nat)
    (P : FloodState → Prop)
    (hP : ∀ s idx, P s → P (push data total s idx)) :
    ∀ n i s, w - i ≤ n → P s → P (edgeSeedH data total w i s) := by
  intro n
  induction n with
  | zero =>
    intro i s hn hs
    rw [edgeSeedH, dif_neg (by omega)]
    exact hs
  | succ n ih =>
    intro i s hn hs
    by_cases hi : i < w
    · rw [edgeSeedH, dif_pos hi]
      exact ih (i + 10) _ (by omega) (hP _ _ (hP _ _ hs))
    · rw [edgeSeedH, dif_neg hi]
      exact hs

theorem edgeSeedV_pres (data : List Nat) (total w hgt : Nat)
    (P : FloodState → Prop)
    (hP : ∀ s idx, P s → P (push data total s idx)) :
    ∀ n i s, hgt - i ≤ n → P s → P (edgeSeedV data total w hgt i s) := by
  intro n
  induction n with
  | zero =>
    intro i s hn hs
    rw [edgeSeedV, dif_neg (by omega)]
    exact hs
  | succ n ih =>
    intro i s hn hs
    by_cases hi : i < hgt
    · rw [edgeSeedV, dif_pos hi]
      exact ih (i + 10) _ (by omega) (hP _ _ (hP _ _ hs))
    · rw [edgeSeedV, dif_neg hi]
      exact hs

theorem initState_core (data : List Nat) (total : Nat) :
    CoreInv data total initState := by
  refine ⟨?_, ?_, ?_, ?_, ?_, ?_, ?_⟩ <;> simp [initState]

theorem seedState_core (data : List Nat) (w h : Nat) :
    CoreInv data (w * h) (seedState data w h) ∧
      (seedState data w h).head = 0 := by
  have hP : ∀ s idx, (CoreInv data (w * h) s ∧ s.head = 0) →
      (CoreInv data (w * h) (push data (w * h) s idx) ∧
        (push data (w * h) s idx).head = 0) := by
    intro s idx hs
    exact ⟨push_core data (w * h) s idx hs.1,
      (push_head data (w * h) s idx).trans hs.2⟩
  have h0 : CoreInv data (w * h) initState ∧ initState.head = 0 :=
    ⟨initState_core data (w * h), rfl⟩
  have hs0 := hP _ (w * h - 1) (hP _ ((h - 1) * w) (hP _ (w - 1) (hP _ 0 h0)))
  unfold seedState
  by_cases ht : (push data (w * h)
      (push data (w * h)
        (push data (w * h)
          (push data (w * h) initState 0)
          (w - 1))
        ((h - 1) * w))
      (w * h - 1)).tail = 0
  · simp only [ht, if_pos rfl]
    exact edgeSeedV_pres data (w * h) w h _ hP h
      0 _ (by omega)
      (edgeSeedH_pres data (w * h) w _ hP w 0 _ (by omega) hs0)
  · simp only [ht, if_false]
    exact hs0

/-- The source's 4-neighbour relation between pixel indices, with the exact
bounds guards used by both the BFS loop and pass 2. -/
def nbr (total w q p : Nat) : Prop :=
  (0 < q % w ∧ p = q - 1) ∨ (q % w < w - 1 ∧ p = q + 1) ∨
    (w ≤ q ∧ p = q - w) ∨ (q < total - w ∧ p = q + w)

/-- Reachability from the seeded pixels through 4-connected in-range
near-black pixels: the specification's notion of "background". -/
inductive Reach (data : List Nat) (total w : Nat) (seedVis : Nat → Bool) :
    Nat → Prop where
  | seed : ∀ p, seedVis p = true → Reach data total w seedVis p
  | step : ∀ q p, Reach data total w seedVis q → nbr total w q p →
      p < total → isBlack data p = true → Reach data total w seedVis p

/-- Invariant carried through the BFS loop, for an abstract reachability
predicate `R` closed under near-black neighbour steps: every visited pixel
is `R`, and every already-dequeued pixel has all of its in-range near-black
neighbours visited. -/
structure LoopInv (data : List Nat) (total w : Nat) (R : Nat → Prop)
    (s : FloodState) : Prop where
  core : CoreInv data total s
  vis_R : ∀ p, s.visited p = true → R p
  processed : ∀ j, j < s.head → ∀ p, nbr total w (s.queue j) p →
    p < total → isBlack data p = true → s.visited p = true

theorem push_visR (data : List Nat) (total : Nat) (R : Nat → Prop)
    (s : FloodState) (idx : Nat) (h : ∀ p, s.visited p = true → R p)
    (hidx : idx < total → isBlack data idx = true → R idx) :
    ∀ p, (push data total s idx).visited p = true → R p := by
  intro p hp
  rcases push_vis_of data total s idx p hp with hv | ⟨hpi, hlt, hb⟩
  · exact h p hv
  · exact hpi ▸ hidx hlt hb

theorem pushIf_visR (data : List Nat) (total : Nat) (R : Nat → Prop)
    (c : Bool) (s : FloodState) (idx : Nat)
    (h : ∀ p, s.visited p = true → R p)
    (hidx : c = true → idx < total → isBlack data idx = true → R idx) :
    ∀ p, (pushIf data total c s idx).visited p = true → R p := by
  rcases c with _ | _
  · exact h
  · exact push_visR data total R s idx h (hidx rfl)

theorem stepNeighbors_core (data : List Nat) (total w : Nat)
    (s : FloodState) (idx : Nat) (h : CoreInv data total s) :
    CoreInv data total (stepNeighbors data total w s idx) := by
  unfold stepNeighbors
  exact pushIf_core data total _ _ _
    (pushIf_core data total _ _ _
      (pushIf_core data total _ _ _
        (pushIf_core data total _ _ _ h)))

theorem stepNeighbors_head (data : List Nat) (total w : Nat)
    (s : FloodState) (idx : Nat) :
    (stepNeighbors data total w s idx).head = s.head := by
  unfold stepNeighbors
  rw [pushIf_head, pushIf_head, pushIf_head, pushIf_head]

theorem stepNeighbors_vis_mono (data : List Nat) (total w : Nat)
    (s : FloodState) (idx p : Nat) (h : s.visited p = true) :
    (stepNeighbors data total w s idx).visited p = true := by
  unfold stepNeighbors
  exact pushIf_vis_mono data total _ _ _ p
    (pushIf_vis_mono data total _ _ _ p
      (pushIf_vis_mono data total _ _ _ p
        (pushIf_vis_mono data total _ _ _ p h)))

theorem stepNeighbors_queue_stable (data : List Nat) (total w : Nat)
    (s : FloodState) (idx j : Nat) (hj : j < s.tail) :
    (stepNeighbors data total w s idx).queue j = s.queue j := by
  unfold stepNeighbors
  have h1 : j < (pushIf data total (decide (0 < idx % w)) s (idx - 1)).tail :=
    lt_of_lt_of_le hj (pushIf_tail_ge data total _ s (idx - 1))
  have h2 : j < (pushIf data total (decide (idx % w < w - 1))
      (pushIf data total (decide (0 < idx % w)) s (idx - 1)) (idx + 1)).tail :=
    lt_of_lt_of_le h1 (pushIf_tail_ge data total _ _ (idx + 1))
  have h3 : j < (pushIf data total (decide (w ≤ idx))
      (pushIf data total (decide (idx % w < w - 1))
        (pushIf data total (decide (0 < idx % w)) s (idx - 1)) (idx + 1))
      (idx - w)).tail :=
    lt_of_lt_of_le h2 (pushIf_tail_ge data total _ _ (idx - w))
  rw [pushIf_queue_stable data total _ _ _ j h3,
    pushIf_queue_stable data total _ _ _ j h2,
    pushIf_queue_stable data total _ _ _ j h1,
    pushIf_queue_stable data total _ _ _ j hj]

theorem stepNeighbors_visR (data : List Nat) (total w : Nat)
    (R : Nat → Prop)
    (Rstep : ∀ q p, R q → nbr total w q p → p < total →
      isBlack data p = true → R p)
    (s : FloodState) (idx : Nat) (hRidx : R idx)
    (h : ∀ p, s.visited p = true → R p) :
    ∀ p, (stepNeighbors data total w s idx).visited p = true → R p := by
  unfold stepNeighbors
  refine pushIf_visR data total R _ _ _
    (pushIf_visR data total R _ _ _
      (pushIf_visR data total R _ _ _
        (pushIf_visR data total R _ _ _ h ?_) ?_) ?_) ?_
  · intro hg hlt hb
    exact Rstep idx _ hRidx (Or.inl ⟨of_decide_eq_true hg, rfl⟩) hlt hb
  · intro hg hlt hb
    exact Rstep idx _ hRidx (Or.inr (Or.inl ⟨of_decide_eq_true hg, rfl⟩)) hlt hb
  · intro hg hlt hb
    exact Rstep idx _ hRidx (Or.inr (Or.inr (Or.inl
      ⟨of_decide_eq_true hg, rfl⟩))) hlt hb
  · intro hg hlt hb
    exact Rstep idx _ hRidx (Or.inr (Or.inr (Or.inr
      ⟨of_decide_eq_true hg, rfl⟩))) hlt hb

theorem stepNeighbors_nbr_vis (data : List Nat) (total w : Nat)
    (s : FloodState) (idx p : Nat) (hnbr : nbr total w idx p)
    (hplt : p < total) (hpb : isBlack data p = true) :
    (stepNeighbors data total w s idx).visited p = true := by
  unfold stepNeighbors
  rcases hnbr with ⟨hg, hp⟩ | ⟨hg, hp⟩ | ⟨hg, hp⟩ | ⟨hg, hp⟩ <;> subst hp
  · exact pushIf_vis_mono data total _ _ _ _
      (pushIf_vis_mono data total _ _ _ _
        (pushIf_vis_mono data total _ _ _ _
          (pushIf_vis_self data total _ _ _ (decide_eq_true hg) hplt hpb)))
  · exact pushIf_vis_mono data total _ _ _ _
      (pushIf_vis_mono data total _ _ _ _
        (pushIf_vis_self data total _ _ _ (decide_eq_true hg) hplt hpb))
  · exact pushIf_vis_mono data total _ _ _ _
      (pushIf_vis_self data total _ _ _ (decide_eq_true hg) hplt hpb)
  · exact pushIf_vis_self data total _ _ _ (decide_eq_true hg) hplt hpb

theorem body_linv (data : List Nat) (total w : Nat) (R : Nat → Prop)
    (Rstep : ∀ q p, R q → nbr total w q p → p < total →
      isBlack data p = true → R p)
    (s : FloodState) (h : LoopInv data total w R s)
    (hc : s.head < s.tail) :
    LoopInv data total w R
      (stepNeighbors data total w { s with head := s.head + 1 }
        (s.queue s.head)) := by
  have hq_vis : s.visited (s.queue s.head) = true := h.core.queue_vis s.head hc
  have hq_R : R (s.queue s.head) := h.vis_R _ hq_vis
  have coreT : CoreInv data total ({ s with head := s.head + 1 } : FloodState) :=
    ⟨hc, h.core.tail_card, h.core.vis_lt, h.core.vis_black,
      h.core.queue_vis, h.core.queue_inj, h.core.vis_enq⟩
  refine ⟨stepNeighbors_core data total w _ _ coreT, ?_, ?_⟩
  · exact stepNeighbors_visR data total w R Rstep _ _ hq_R h.vis_R
  · intro j hj p hnbr hplt hpb
    rw [stepNeighbors_head data total w _ _] at hj
    have hjs : j < s.tail := by
      have := h.core.head_le
      simp only at hj
      omega
    have hqj := stepNeighbors_queue_stable data total w
      { s with head := s.head + 1 } (s.queue s.head) j hjs
    rw [hqj] at hnbr
    by_cases hjh : j < s.head
    · exact stepNeighbors_vis_mono data total w _ _ p
        (h.processed j hjh p hnbr hplt hpb)
    · have hje : j = s.head := by
        simp only at hj
        omega
      subst hje
      exact stepNeighbors_nbr_vis data total w _ _ p hnbr hplt hpb

theorem bfsLoop_linv (data : List Nat) (total w : Nat) (R : Nat → Prop)
    (Rstep : ∀ q p, R q → nbr total w q p → p < total →
      isBlack data p = true → R p)
    (s : FloodState) (h : LoopInv data total w R s) :
    LoopInv data total w R (bfsLoop data total w s) ∧
      (bfsLoop data total w s).head = (bfsLoop data total w s).tail := by
  induction s using bfsLoop.induct data total w with
  | case1 s hc ih =>
    rw [bfsLoop, dif_pos hc]
    exact ih (body_linv data total w R Rstep s h hc)
  | case2 s hc =>
    rw [bfsLoop, dif_neg hc]
    exact ⟨h, by have := h.core.head_le; omega⟩

/-- Summary of the flood-fill run: the final state satisfies the structural
invariants, the loop has drained the queue (`head = tail`), every visited
pixel is reachable from the seeded pixels through near-black 4-connected
steps, and every visited pixel's in-range near-black neighbours are
themselves visited. -/
theorem floodFill_final (data : List Nat) (w h : Nat) :
    CoreInv data (w * h) (floodFill data w h) ∧
      (floodFill data w h).head = (floodFill data w h).tail ∧
      (∀ p, (floodFill data w h).visited p = true →
        Reach data (w * h) w (seedState data w h).visited p) ∧
      (∀ q p, (floodFill data w h).visited q = true →
        nbr (w * h) w q p → p < w * h → isBlack data p = true →
        (floodFill data w h).visited p = true) := by
  have hseed := seedState_core data w h
  have hstart : LoopInv data (w * h) w
      (Reach data (w * h) w (seedState data w h).visited)
      (seedState data w h) := by
    refine ⟨hseed.1, ?_, ?_⟩
    · intro p hp
      exact Reach.seed p hp
    · intro j hj
      rw [hseed.2] at hj
      omega
  have hloop := bfsLoop_linv data (w * h) w
    (Reach data (w * h) w (seedState data w h).visited)
    (fun q p hq hn hlt hb => Reach.step q p hq hn hlt hb)
    (seedState data w h) hstart
  refine ⟨hloop.1.core, hloop.2, hloop.1.vis_R, ?_⟩
  intro q p hq hn hlt hb
  obtain ⟨j, hj, hqj⟩ := hloop.1.core.vis_enq q hq
  have hjh : j < (bfsLoop data (w * h) w (seedState data w h)).head := by
    have h2 := hloop.2
    omega
  exact hloop.1.processed j hjh p (by rw [hqj]; exact hn) hlt hb

/-! ## Pass 2: pointwise characterisation -/

theorem getD_set_ne (l : List Nat) (i j v : Nat) (hij : i ≠ j) :
    (l.set i v).getD j 0 = l.getD j 0 := by
  simp [List.getD_eq_getElem?_getD, List.getElem?_set_ne hij]

theorem getD_set_self (l : List Nat) (i v : Nat) (hi : i < l.length) :
    (l.set i v).getD i 0 = v := by
  simp [List.getD_eq_getElem?_getD, List.getElem?_set_self, hi]

theorem pass2Step_length (vis : Nat → Bool) (total w : Nat)
    (data : List Nat) (i : Nat) :
    (pass2Step vis total w data i).length = data.length := by
  cases hv : vis i <;> cases he : isEdgePix vis total w i <;>
    simp [pass2Step, hv, he]

theorem pass2Step_getD_ne (vis : Nat → Bool) (total w : Nat)
    (data : List Nat) (i o : Nat) (ho : o ≠ i * 4 + 3) :
    (pass2Step vis total w data i).getD o 0 = data.getD o 0 := by
  cases hv : vis i <;> cases he : isEdgePix vis total w i <;>
    simp [pass2Step, hv, he, List.getD_eq_getElem?_getD,
      List.getElem?_set_ne (Ne.symm ho)]

theorem pass2Step_getD_self (vis : Nat → Bool) (total w : Nat)
    (data : List Nat) (i : Nat) (hi : i * 4 + 3 < data.length) :
    (pass2Step vis total w data i).getD (i * 4 + 3) 0 =
      if vis i then 0
      else if isEdgePix vis total w i then maxRGB data i
      else data.getD (i * 4 + 3) 0 := by
  cases hv : vis i <;> cases he : isEdgePix vis total w i <;>
    simp [pass2Step, hv, he, List.getD_eq_getElem?_getD,
      List.getElem?_set_self, hi]

theorem foldl_pass2_length (vis : Nat → Bool) (total w : Nat) :
    ∀ (l : List Nat) (data : List Nat),
      (l.foldl (pass2Step vis total w) data).length = data.length := by
  intro l
  induction l with
  | nil => intro data; rfl
  | cons j l ih =>
    intro data
    rw [List.foldl_cons, ih, pass2Step_length]

theorem foldl_pass2_getD_ne (vis : Nat → Bool) (total w : Nat) :
    ∀ (l : List Nat) (data : List Nat) (o : Nat),
      (∀ j ∈ l, o ≠ j * 4 + 3) →
      (l.foldl (pass2Step vis total w) data).getD o 0 = data.getD o 0 := by
  intro l
  induction l with
  | nil => intro data o _; rfl
  | cons j l ih =>
    intro data o ho
    rw [List.foldl_cons, ih _ o (fun k hk => ho k (List.mem_cons_of_mem j hk)),
      pass2Step_getD_ne _ _ _ _ _ _ (ho j (List.mem_cons_self j l))]

theorem pass2_length (vis : Nat → Bool) (total w : Nat) (data : List Nat) :
    (pass2 vis total w data).length = data.length :=
  foldl_pass2_length vis total w (List.range total) data

theorem pass2_getD_ne (vis : Nat → Bool) (total w : Nat) (data : List Nat)
    (o : Nat) (ho : o % 4 ≠ 3) :
    (pass2 vis total w data).getD o 0 = data.getD o 0 := by
  unfold pass2
  exact foldl_pass2_getD_ne vis total w (List.range total) data o
    (fun j _ => by omega)

theorem range_split (total p : Nat) (hp : p < total) :
    List.range total =
      List.range' 0 p ++ p :: List.range' (p + 1) (total - (p + 1)) := by
  have e1 : List.range' 0 total = List.range' 0 ((total - p) + p) :=
    congrArg (fun n => List.range' 0 n) (by omega)
  have h2 := List.range'_append 0 p (total - p) 1
  have e2 : (0 : Nat) + 1 * p = p := by omega
  rw [e2] at h2
  have h1 : List.range' p (total - p) =
      p :: List.range' (p + 1) (total - (p + 1)) := by
    have ht : total - p = (total - (p + 1)) + 1 := by omega
    rw [ht, List.range'_succ]
  rw [List.range_eq_range', e1, ← h2, h1]

theorem pass2_alpha (vis : Nat → Bool) (total w : Nat) (data : List Nat)
    (p : Nat) (hlen : data.length = 4 * total) (hp : p < total) :
    (pass2 vis total w data).getD (p * 4 + 3) 0 =
      if vis p then 0
      else if isEdgePix vis total w p then maxRGB data p
      else data.getD (p * 4 + 3) 0 := by
  unfold pass2
  rw [range_split total p hp, List.foldl_append, List.foldl_cons]
  have hpre : ∀ o : Nat, (∀ j, j < p → o ≠ j * 4 + 3) →
      ((List.range' 0 p).foldl (pass2Step vis total w) data).getD o 0 =
        data.getD o 0 := by
    intro o ho
    exact foldl_pass2_getD_ne vis total w _ data o
      (fun j hj => ho j (by
        have := List.mem_range'_1.mp hj
        omega))
  have hlen1 : ((List.range' 0 p).foldl (pass2Step vis total w) data).length
      = data.length := foldl_pass2_length vis total w _ data
  have hpost := foldl_pass2_getD_ne vis total w
    (List.range' (p + 1) (total - (p + 1)))
    (pass2Step vis total w
      ((List.range' 0 p).foldl (pass2Step vis total w) data) p)
    (p * 4 + 3)
    (fun j hj => by
      have := List.mem_range'_1.mp hj
      omega)
  rw [hpost, pass2Step_getD_self vis total w _ p (by rw [hlen1, hlen]; omega)]
  have hr : maxRGB ((List.range' 0 p).foldl (pass2Step vis total w) data) p
      = maxRGB data p := by
    unfold maxRGB
    rw [hpre (p * 4) (fun j _ => by omega),
      hpre (p * 4 + 1) (fun j _ => by omega),
      hpre (p * 4 + 2) (fun j _ => by omega)]
  rw [hr, hpre (p * 4 + 3) (fun j hj => by omega)]

/-! ## Neighbour symmetry: the pass-2 edge test looks at exactly the pixels
whose BFS expansion would have reached `p`. -/

theorem mod_pred (w p : Nat) (hw : 0 < w) (h : 0 < p % w) :
    (p - 1) % w = p % w - 1 := by
  have hd := Nat.div_add_mod p w
  have hmlt : p % w < w := Nat.mod_lt p hw
  have hp1 : p - 1 = w * (p / w) + (p % w - 1) := by omega
  rw [hp1, Nat.mul_add_mod]
  exact Nat.mod_eq_of_lt (by omega)

theorem mod_succ (w p : Nat) (hw : 0 < w) (h : p % w < w - 1) :
    (p + 1) % w = p % w + 1 := by
  have hd := Nat.div_add_mod p w
  have hp1 : p + 1 = w * (p / w) + (p % w + 1) := by omega
  rw [hp1, Nat.mul_add_mod]
  exact Nat.mod_eq_of_lt (by omega)

theorem nbr_of_left (total w p : Nat) (hw : 0 < w) (h : 0 < p % w) :
    nbr total w (p - 1) p := by
  have hm := mod_pred w p hw h
  have hmlt : p % w < w := Nat.mod_lt p hw
  have hp0 : 0 < p := by
    rcases Nat.eq_zero_or_pos p with h0 | h0
    · subst h0; simp at h
    · exact h0
  refine Or.inr (Or.inl ⟨?_, ?_⟩)
  · rw [hm]
    generalize p % w = r at h hmlt
    omega
  · omega

theorem nbr_of_right (total w p : Nat) (hw : 0 < w) (h : p % w < w - 1) :
    nbr total w (p + 1) p := by
  have hm := mod_succ w p hw h
  refine Or.inl ⟨?_, ?_⟩
  · rw [hm]
    generalize p % w = r at h
    omega
  · omega

theorem nbr_of_up (total w p : Nat) (hwp : w ≤ p) (hp : p < total) :
    nbr total w (p - w) p := by
  refine Or.inr (Or.inr (Or.inr ⟨?_, ?_⟩)) <;> omega

theorem nbr_of_down (total w p : Nat) (h : p < total - w) :
    nbr total w (p + w) p := by
  refine Or.inr (Or.inr (Or.inl ⟨?_, ?_⟩)) <;> omega

/-- After the flood fill, an unvisited near-black in-range pixel cannot have
a visited neighbour: the BFS would have pushed it when that neighbour was
dequeued.  Hence pass 2 never classifies it as an edge pixel. -/
theorem unvisited_black_not_edge (data : List Nat) (w h p : Nat)
    (hp : p < w * h) (hb : isBlack data p = true)
    (hnv : (floodFill data w h).visited p = false) :
    isEdgePix (floodFill data w h).visited (w * h) w p = false := by
  have hw : 0 < w := by
    rcases Nat.eq_zero_or_pos w with h0 | h0
    · subst h0; simp at hp
    · exact h0
  have hcompl := (floodFill_final data w h).2.2.2
  rcases he : isEdgePix (floodFill data w h).visited (w * h) w p with _ | _
  · rfl
  · exfalso
    have he' := he
    simp only [isEdgePix, Bool.or_eq_true, Bool.and_eq_true,
      decide_eq_true_eq] at he'
    rcases he' with ((⟨hg, hv⟩ | ⟨hg, hv⟩) | ⟨hg, hv⟩) | ⟨hg, hv⟩
    · have := hcompl (p - 1) p hv (nbr_of_left (w * h) w p hw hg) hp hb
      rw [this] at hnv
      exact Bool.noConfusion hnv
    · have := hcompl (p + 1) p hv (nbr_of_right (w * h) w p hw hg) hp hb
      rw [this] at hnv
      exact Bool.noConfusion hnv
    · have := hcompl (p - w) p hv (nbr_of_up (w * h) w p hg hp) hp hb
      rw [this] at hnv
      exact Bool.noConfusion hnv
    · have := hcompl (p + w) p hv (nbr_of_down (w * h) w p hg) hp hb
      rw [this] at hnv
      exact Bool.noConfusion hnv

/-! ## Error-classification bridging lemmas -/

theorem strContains_trans_apikey (msg : String)
    (h : strContains msg "API key not valid" = true) :
    strContains msg "API key" = true := by
  unfold strContains at h ⊢
  have h1 := of_decide_eq_true h
  have h2 : "API key".toList <:+: "API key not valid".toList := by decide
  exact decide_eq_true (h2.trans h1)

/-- The source's authentication test is exactly the specification's four
substrings: the fifth source pattern `"API key not valid"` is subsumed by
`"API key"`. -/
theorem isAuthError_eq (msg : String) :
    isAuthError msg =
      (strContains msg "API key" || strContains msg "403" ||
        strContains msg "PERMISSION_DENIED" ||
        strContains msg "API_KEY_INVALID") := by
  unfold isAuthError
  cases hx : strContains msg "API key not valid"
  · cases strContains msg "API_KEY_INVALID" <;>
      cases strContains msg "403" <;>
      cases strContains msg "API key" <;>
      cases strContains msg "PERMISSION_DENIED" <;> simp
  · rw [strContains_trans_apikey msg hx]
    simp

theorem clientError_of_claim (msg : String)
    (h : (strContains msg "404" || strContains msg "400" ||
      strContains msg "403" || strContains msg "not found" ||
      strContains msg "API key") = true) :
    isClientError msg = true := by
  unfold isClientError
  simp only [Bool.or_eq_true] at h ⊢
  rcases h with ((((h | h) | h) | h) | h) <;> simp [h]

/-! ## Claim theorems -/

/-- C1 (counterexample).  The claim says that starting from quota count 0
with no UserKey, five consuming calls succeed and push the counter to 5.
In the code the very first such call already fails with
`ERROR_API_KEY_REQUIRED` — even for an operation that would always succeed —
with zero network calls and the counter left at 0, so no successful
consuming call exists from that state at all. -/
theorem quota_claim_counterexample :
    (callGemini { userApiKey := none, freeImageCount := 0 }
        (fun _ => (.ok 0 : Except String Nat))).1 =
      .error ERROR_API_KEY_REQUIRED ∧
    (callGemini { userApiKey := none, freeImageCount := 0 }
        (fun _ => (.ok 0 : Except String Nat))).2.1.freeImageCount = 0 ∧
    (callGemini { userApiKey := none, freeImageCount := 0 }
        (fun _ => (.ok 0 : Except String Nat))).2.2 = 0 :=
  ⟨rfl, rfl, rfl⟩

/-- C1 (amended).  With no UserKey configured, every call — the first
included, whatever the quota count and whatever the operation would return —
fails with `ERROR_API_KEY_REQUIRED` (CredentialRequired), issues zero
network calls, and leaves the store (key and quota counter) unchanged: the
executor has no free-quota tier and never increments the counter. -/
theorem quota_no_free_tier {α : Type} (count : Nat)
    (op : Nat → Except String α) :
    callGemini { userApiKey := none, freeImageCount := count } op =
      (.error ERROR_API_KEY_REQUIRED,
        { userApiKey := none, freeImageCount := count }, 0) :=
  rfl

/-- C4.  An operation whose every attempt fails with a message matching none
of the non-retryable substrings is invoked exactly 3 times, with delays of
1000 ms before the second attempt and 2000 ms before the third, and the
final outcome is the last attempt's error unchanged. -/
theorem retry_exhausts_transient {α : Type} (msgs : Nat → String)
    (h : ∀ n, n < 3 → isClientError (msgs n) = false) :
    retryOperation (α := α) (fun n => .error (msgs n)) =
      (.error (msgs 2), 3, [1000, 2000]) := by
  have h0 := h 0 (by omega)
  have h1 := h 1 (by omega)
  have h2 := h 2 (by omega)
  simp [retryOperation, retryOperationAux, h0, h1, h2]

theorem retry_exhausts_transient_witness :
    retryOperation (fun _ => (.error "boom" : Except String Unit)) =
      (.error "boom", 3, [1000, 2000]) :=
  retry_exhausts_transient (α := Unit) (fun _ => "boom") (by decide)

/-- C5.  An operation whose first attempt fails with a message containing
`"404"` (or `"400"`, `"403"`, `"not found"`, `"API key"`) is invoked exactly
once: the error is rethrown immediately, with no retry and no delay. -/
theorem retry_client_error_immediate {α : Type} (op : Nat → Except String α)
    (m : String) (hop : op 0 = .error m)
    (hcl : (strContains m "404" || strContains m "400" ||
      strContains m "403" || strContains m "not found" ||
      strContains m "API key") = true) :
    retryOperation op = (.error m, 1, []) := by
  have hc := clientError_of_claim m hcl
  simp [retryOperation, retryOperationAux, hop, hc]

theorem retry_client_error_immediate_witness :
    retryOperation (fun _ => (.error "404" : Except String Unit)) =
      (.error "404", 1, []) :=
  retry_client_error_immediate (fun _ => (.error "404" : Except String Unit))
    "404" rfl (by decide)

/-- C6.  When a call fails after the retry policy with a message containing
one of `"API key"`, `"403"`, `"PERMISSION_DENIED"`, `"API_KEY_INVALID"` and
a UserKey is in use, the stored key is cleared and the call fails with
`ERROR_API_KEY_INVALID` (CredentialInvalid); an error matching none of them
is rethrown unmodified with the store untouched; and with no UserKey no
network call is made at all — the call fails up front with
`ERROR_API_KEY_REQUIRED` (CredentialRequired), so a DeviceKey-backed
execution never reaches classification. -/
theorem callGemini_classification {α : Type} (k : String) (count : Nat)
    (op : Nat → Except String α) (msg : String)
    (hfail : (retryOperation op).1 = .error msg) :
    ((strContains msg "API key" || strContains msg "403" ||
        strContains msg "PERMISSION_DENIED" ||
        strContains msg "API_KEY_INVALID") = true →
      callGemini { userApiKey := some k, freeImageCount := count } op =
        (.error ERROR_API_KEY_INVALID,
          { userApiKey := none, freeImageCount := count },
          (retryOperation op).2.1)) ∧
    ((strContains msg "API key" || strContains msg "403" ||
        strContains msg "PERMISSION_DENIED" ||
        strContains msg "API_KEY_INVALID") = false →
      callGemini { userApiKey := some k, freeImageCount := count } op =
        (.error msg, { userApiKey := some k, freeImageCount := count },
          (retryOperation op).2.1)) ∧
    (∀ count2 : Nat,
      callGemini { userApiKey := none, freeImageCount := count2 } op =
        (.error ERROR_API_KEY_REQUIRED,
          { userApiKey := none, freeImageCount := count2 }, 0)) := by
  refine ⟨?_, ?_, fun count2 => rfl⟩ <;> intro hcond <;>
    simp [callGemini, hfail, isAuthError_eq, hcond]

theorem callGemini_classification_witness :
    (callGemini { userApiKey := some "K", freeImageCount := 0 }
        (fun _ => (.error "403" : Except String Unit)) =
      (.error ERROR_API_KEY_INVALID,
        { userApiKey := none, freeImageCount := 0 },
        (retryOperation (fun _ => (.error "403" : Except String Unit))).2.1)) ∧
    (callGemini { userApiKey := some "K", freeImageCount := 0 }
        (fun _ => (.error "boom" : Except String Unit)) =
      (.error "boom", { userApiKey := some "K", freeImageCount := 0 },
        (retryOperation (fun _ => (.error "boom" : Except String Unit))).2.1)) ∧
    (callGemini { userApiKey := none, freeImageCount := 7 }
        (fun _ => (.error "boom" : Except String Unit)) =
      (.error ERROR_API_KEY_REQUIRED,
        { userApiKey := none, freeImageCount := 7 }, 0)) :=
  ⟨(callGemini_classification "K" 0 (fun _ => .error "403") "403"
      rfl).1 (by decide),
   (callGemini_classification "K" 0 (fun _ => .error "boom") "boom"
      rfl).2.1 (by decide),
   (callGemini_classification "K" 0 (fun _ => .error "boom") "boom"
      rfl).2.2 7⟩

theorem attemptConv_step (encode : F64 → Option Nat) (k size : Nat)
    (henc : encode (qualityAt k) = some size)
    (hg : 99 * 1024 < size ∧ F64.blt d01 (qualityAt k) = true) :
    attemptConversion encode k = attemptConversion encode (k + 1) := by
  rw [attemptConversion]
  simp only [henc]
  rw [dif_pos hg]

theorem attemptConv_stop (encode : F64 → Option Nat) (k size : Nat)
    (henc : encode (qualityAt k) = some size)
    (hg : ¬ (99 * 1024 < size ∧ F64.blt d01 (qualityAt k) = true)) :
    attemptConversion encode k = .ok (size, qualityAt k) := by
  rw [attemptConversion]
  simp only [henc]
  rw [dif_neg hg]

theorem attemptConversion_spec (encode : F64 → Option Nat) :
    ∀ n k, 10 - k ≤ n → k ≤ 9 → ∀ size q,
      attemptConversion encode k = .ok (size, q) →
      size ≤ 99 * 1024 ∨ q = qualityAt 9 := by
  have hall : ∀ j, j ≤ 8 → F64.blt d01 (qualityAt j) = true := by decide
  intro n
  induction n with
  | zero =>
    intro k hn hk9
    exact absurd hk9 (by omega)
  | succ n ih =>
    intro k hn hk9 size q hok
    rw [attemptConversion] at hok
    split at hok
    · exact absurd hok (by simp)
    · rename_i size2 henc
      split at hok
      · rename_i hg
        have hk8 : k ≤ 8 := by
          by_contra hc
          have h9k : 9 ≤ k := by omega
          rw [qualityAt_floor k h9k] at hg
          exact Bool.noConfusion hg.2
        exact ih (k + 1) (by omega) (by omega) size q hok
      · rename_i hg
        simp only [Except.ok.injEq, Prod.mk.injEq] at hok
        obtain ⟨hs, hq⟩ := hok
        by_cases hbig : 99 * 1024 < size2
        · have hbltf : F64.blt d01 (qualityAt k) = false := by
            rcases hb : F64.blt d01 (qualityAt k) with _ | _
            · rfl
            · exact absurd ⟨hbig, hb⟩ hg
          have hk : k = 9 := by
            by_contra hne
            have hk8 : k ≤ 8 := by omega
            rw [hall k hk8] at hbltf
            exact Bool.noConfusion hbltf
          right
          rw [← hq, hk]
        · left
          omega

/-- C7 (amended).  Whenever the export ladder returns a blob, either its
byte size is at most 99×1024, or the quality has been stepped down from the
double 0.9 by binary64 `- 0.1` subtractions until it is no longer greater
than the double 0.1 — which, because of double rounding, is one step below
the nominal floor: the final quality is `qualityAt 9 = 5·2⁻⁵⁵ ≈ 1.39e-16`,
not 0.1 — and that final-quality blob is returned regardless of its size. -/
theorem convertToWhatsAppFormat_size (encode : F64 → Option Nat)
    (size : Nat) (q : F64)
    (hok : convertToWhatsAppFormat encode = .ok (size, q)) :
    size ≤ 99 * 1024 ∨ q = qualityAt 9 :=
  attemptConversion_spec encode 10 0 (by omega) (by omega) size q hok

theorem convertToWhatsAppFormat_size_witness :
    convertToWhatsAppFormat (fun _ => some 7) = .ok (7, qualityAt 0) ∧
      (7 ≤ 99 * 1024 ∨ qualityAt 0 = qualityAt 9) := by
  have h : convertToWhatsAppFormat (fun _ => some 7) =
      .ok (7, qualityAt 0) := by
    rw [convertToWhatsAppFormat]
    exact attemptConv_stop _ 0 7 rfl (fun hcon => absurd hcon.1 (by norm_num))
  exact ⟨h, convertToWhatsAppFormat_size (fun _ => some 7) 7 (qualityAt 0) h⟩

/-- The binary64 constants behind the ladder: the double `0.1` is slightly
above 1/10, and after eight subtractions the iterate still compares
strictly greater than it — this is what sends the ladder one step past the
nominal floor. -/
theorem quality_ladder_overshoots :
    (1 / 10 < d01.toRat ∧ d01.toRat - 1 / 10 ≤ 1 / 2 ^ 56) ∧
    qualityAt 8 = { m := 3602879701896402, e := -55 } ∧
    F64.blt d01 (qualityAt 8) = true := by
  refine ⟨?_, by decide, by decide⟩
  norm_num [F64.toRat, d01]
  rw [show ((55 : Int).toNat) = 55 from rfl]
  norm_num

/-- C7 (counterexample).  With every encode oversized (200×1024 bytes), the
export returns the blob encoded at `qualityAt 9 = 5·2⁻⁵⁵ ≈ 1.39e-16`, not
at the claimed floor 0.1: in binary64 the iterate at nominal 0.1 is
`0.10000000000000014 > 0.1`, so the `quality > 0.1` guard passes once more
and the ladder takes an extra step below the claimed floor before giving
up. -/
theorem convertToWhatsAppFormat_floor_counterexample :
    convertToWhatsAppFormat (fun _ => some (200 * 1024)) =
      .ok (200 * 1024, qualityAt 9) ∧
    99 * 1024 < 200 * 1024 ∧
    qualityAt 9 = { m := 5, e := -55 } ∧
    d01 = { m := 3602879701896397, e := -55 } ∧
    (qualityAt 9).toRat = 5 / 2 ^ 55 ∧
    (qualityAt 9).toRat ≠ 1 / 10 ∧
    (qualityAt 9).toRat ≠ d01.toRat ∧
    (qualityAt 9).toRat < 1 / 10 ^ 15 := by
  have h9 : qualityAt 9 = { m := 5, e := -55 } := by decide
  have hrun : convertToWhatsAppFormat (fun _ => some (200 * 1024)) =
      .ok (200 * 1024, qualityAt 9) := by
    rw [convertToWhatsAppFormat,
      attemptConv_step _ 0 (200 * 1024) rfl (by decide),
      attemptConv_step _ 1 (200 * 1024) rfl (by decide),
      attemptConv_step _ 2 (200 * 1024) rfl (by decide),
      attemptConv_step _ 3 (200 * 1024) rfl (by decide),
      attemptConv_step _ 4 (200 * 1024) rfl (by decide),
      attemptConv_step _ 5 (200 * 1024) rfl (by decide),
      attemptConv_step _ 6 (200 * 1024) rfl (by decide),
      attemptConv_step _ 7 (200 * 1024) rfl (by decide),
      attemptConv_step _ 8 (200 * 1024) rfl (by decide),
      attemptConv_stop _ 9 (200 * 1024) rfl (by decide)]
  have hval : (qualityAt 9).toRat = 5 / 2 ^ 55 := by
    rw [h9]
    norm_num [F64.toRat]
    rw [show ((55 : Int).toNat) = 55 from rfl]
    norm_num
  refine ⟨hrun, by norm_num, h9, rfl, hval, ?_, ?_, ?_⟩
  · rw [hval]
    norm_num
  · rw [hval]
    norm_num [F64.toRat, d01]
    rw [show ((55 : Int).toNat) = 55 from rfl]
    norm_num
  · rw [hval]
    norm_num

/-- C8.  Background matting never fails: if the image fails to load or the
canvas context is unavailable, the promise still resolves — with the
original input returned unchanged — instead of propagating the failure. -/
theorem matting_graceful_degradation (original : String) (w h : Nat) :
    removeSmartBackgroundRun original .loadError = .inl original ∧
      removeSmartBackgroundRun original (.noContext w h) = .inl original :=
  ⟨rfl, rfl⟩

/-- C2.  Pass 2, pixel by pixel, on an opaque input: a pixel marked visited
by the flood fill gets output alpha 0; an unvisited pixel with a visited
4-connected neighbour gets output alpha `max(R, G, B)` of its own colour;
every remaining pixel keeps full opacity (alpha 255). -/
theorem matting_pass2_pointwise (data : List Nat) (w h p : Nat)
    (hlen : data.length = 4 * (w * h))
    (hfull : ∀ i, i < w * h → data.getD (i * 4 + 3) 0 = 255)
    (hp : p < w * h) :
    ((floodFill data w h).visited p = true →
      (removeSmartBackgroundData data w h).getD (p * 4 + 3) 0 = 0) ∧
    ((floodFill data w h).visited p = false →
      isEdgePix (floodFill data w h).visited (w * h) w p = true →
      (removeSmartBackgroundData data w h).getD (p * 4 + 3) 0 =
        maxRGB data p) ∧
    ((floodFill data w h).visited p = false →
      isEdgePix (floodFill data w h).visited (w * h) w p = false →
      (removeSmartBackgroundData data w h).getD (p * 4 + 3) 0 = 255) := by
  have hchar := pass2_alpha (floodFill data w h).visited (w * h) w data p
    hlen hp
  refine ⟨?_, ?_, ?_⟩
  · intro h1
    unfold removeSmartBackgroundData
    rw [hchar]
    simp [h1]
  · intro h1 h2
    unfold removeSmartBackgroundData
    rw [hchar]
    simp [h1, h2]
  · intro h1 h2
    unfold removeSmartBackgroundData
    rw [hchar, if_neg (by simp [h1]), if_neg (by simp [h2])]
    exact hfull p hp

theorem matting_pass2_pointwise_witness :
    (((floodFill [0, 0, 0, 255] 1 1).visited 0 = true →
      (removeSmartBackgroundData [0, 0, 0, 255] 1 1).getD 3 0 = 0) ∧
    ((floodFill [0, 0, 0, 255] 1 1).visited 0 = false →
      isEdgePix (floodFill [0, 0, 0, 255] 1 1).visited 1 1 0 = true →
      (removeSmartBackgroundData [0, 0, 0, 255] 1 1).getD 3 0 =
        maxRGB [0, 0, 0, 255] 0) ∧
    ((floodFill [0, 0, 0, 255] 1 1).visited 0 = false →
      isEdgePix (floodFill [0, 0, 0, 255] 1 1).visited 1 1 0 = false →
      (removeSmartBackgroundData [0, 0, 0, 255] 1 1).getD 3 0 = 255)) :=
  matting_pass2_pointwise [0, 0, 0, 255] 1 1 0 rfl (by decide) (by decide)

/-- C9.  Matting modifies only the alpha channel: the output buffer has the
same length, every pixel's R, G and B bytes equal the input's, and the
image dimensions pass through unchanged. -/
theorem matting_modifies_only_alpha (data : List Nat) (w h p : Nat) :
    (removeSmartBackgroundData data w h).length = data.length ∧
    (removeSmartBackgroundData data w h).getD (p * 4) 0 =
      data.getD (p * 4) 0 ∧
    (removeSmartBackgroundData data w h).getD (p * 4 + 1) 0 =
      data.getD (p * 4 + 1) 0 ∧
    (removeSmartBackgroundData data w h).getD (p * 4 + 2) 0 =
      data.getD (p * 4 + 2) 0 ∧
    (∀ original, removeSmartBackgroundRun original (.decoded w h data) =
      .inr (w, h, removeSmartBackgroundData data w h)) := by
  refine ⟨pass2_length _ _ _ _, ?_, ?_, ?_, fun _ => rfl⟩ <;>
    exact pass2_getD_ne _ _ _ _ _ (by omega)

/-- C10.  In the flood fill, every pixel index is enqueued at most once (the
entries of the queue below `tail` are pairwise distinct), the tail cursor
never exceeds the pixel count (the fixed-size queue never overflows), and
the BFS drains the queue completely in at most `W×H` dequeues
(`head = tail ≤ W×H` at exit). -/
theorem flood_queue_safe (data : List Nat) (w h : Nat) :
    (floodFill data w h).tail ≤ w * h ∧
    (floodFill data w h).head = (floodFill data w h).tail ∧
    (floodFill data w h).head ≤ w * h ∧
    ((List.range (floodFill data w h).tail).map
      (floodFill data w h).queue).Nodup := by
  obtain ⟨core, hht, _, _⟩ := floodFill_final data w h
  have htail : (floodFill data w h).tail ≤ w * h :=
    le_trans core.tail_card (cardV_le _ _)
  refine ⟨htail, hht, by omega, ?_⟩
  refine List.Nodup.map_on ?_ (List.nodup_range _)
  intro x hx y hy hf
  by_contra hxy
  rcases Nat.lt_or_ge x y with hlt | hge
  · exact core.queue_inj x y hlt (List.mem_range.mp hy) hf
  · have hlt : y < x := by omega
    exact core.queue_inj y x hlt (List.mem_range.mp hx) hf.symm

/-- C3.  A near-black pixel that is not reachable from the seeded pixels
through a 4-connected near-black path is not marked as background: the
flood fill leaves it unvisited, and on an opaque input its output alpha
stays 255 (it is treated as foreground, not erased). -/
theorem matting_enclosed_black_foreground (data : List Nat) (w h p : Nat)
    (hlen : data.length = 4 * (w * h))
    (hfull : ∀ i, i < w * h → data.getD (i * 4 + 3) 0 = 255)
    (hp : p < w * h)
    (hb : isBlack data p = true)
    (hnr : ¬ Reach data (w * h) w (seedState data w h).visited p) :
    (floodFill data w h).visited p = false ∧
    (removeSmartBackgroundData data w h).getD (p * 4 + 3) 0 = 255 := by
  have hsound := (floodFill_final data w h).2.2.1
  have hnv : (floodFill data w h).visited p = false := by
    rcases hv : (floodFill data w h).visited p with _ | _
    · rfl
    · exact absurd (hsound p hv) hnr
  have hedge := unvisited_black_not_edge data w h p hp hb hnv
  have hchar := pass2_alpha (floodFill data w h).visited (w * h) w data p
    hlen hp
  refine ⟨hnv, ?_⟩
  unfold removeSmartBackgroundData
  rw [hchar, if_neg (by simp [hnv]), if_neg (by simp [hedge])]
  exact hfull p hp

theorem push_noop (data : List Nat) (total : Nat) (s : FloodState) (idx : Nat)
    (h : isBlack data idx = false) : push data total s idx = s := by
  simp [push, h]

/-- A 3x3 test image: white everywhere, one black pixel enclosed in the
centre (index 4), simulating an internal black dot unreachable from the
border seeds. -/
def c3data : List Nat :=
  [255, 255, 255, 255, 255, 255, 255, 255, 255, 255, 255, 255,
   255, 255, 255, 255, 0, 0, 0, 255, 255, 255, 255, 255,
   255, 255, 255, 255, 255, 255, 255, 255, 255, 255, 255, 255]

theorem c3_seed_eval : seedState c3data 3 3 = initState := by
  have hA : isBlack c3data 0 = false := by decide
  have hB : isBlack c3data (3 - 1) = false := by decide
  have hC : isBlack c3data ((3 - 1) * 3) = false := by decide
  have hD : isBlack c3data (3 * 3 - 1) = false := by decide
  have hE : isBlack c3data (3 * 3 - 1 - 0) = false := by decide
  have hF : isBlack c3data (0 * 3) = false := by decide
  have hG : isBlack c3data (0 * 3 + 3 - 1) = false := by decide
  simp only [seedState]
  rw [push_noop _ _ _ _ hA, push_noop _ _ _ _ hB, push_noop _ _ _ _ hC,
    push_noop _ _ _ _ hD]
  rw [if_pos (show initState.tail = 0 from rfl)]
  rw [edgeSeedH, dif_pos (by norm_num : (0 : Nat) < 3),
    push_noop _ _ _ _ hA, push_noop _ _ _ _ hE,
    edgeSeedH, dif_neg (by norm_num : ¬ (10 : Nat) < 3)]
  rw [edgeSeedV, dif_pos (by norm_num : (0 : Nat) < 3),
    push_noop _ _ _ _ hF, push_noop _ _ _ _ hG,
    edgeSeedV, dif_neg (by norm_num : ¬ (10 : Nat) < 3)]

theorem c3_unreachable :
    ∀ p, ¬ Reach c3data (3 * 3) 3 (seedState c3data 3 3).visited p := by
  intro p hr
  induction hr with
  | seed p hp =>
    rw [c3_seed_eval] at hp
    exact Bool.noConfusion hp
  | step q p hq hn hlt hb ih => exact ih

theorem matting_enclosed_black_foreground_witness :
    (floodFill c3data 3 3).visited 4 = false ∧
    (removeSmartBackgroundData c3data 3 3).getD (4 * 4 + 3) 0 = 255 :=
  matting_enclosed_black_foreground c3data 3 3 4 rfl (by decide) (by decide)
    (by decide) (c3_unreachable 4)

end StickerStudio
